import Mathlib

/-!
Verification development for the hellomint NFT registry contract
(`src/contract/src/lib.rs`).

The contract in the repository is a thin wrapper around the NEAR
non-fungible-token standard implementation (`near_contract_standards`):
`nft_mint` and `nft_mint_default` delegate to `NonFungibleToken::internal_mint`,
and the core/approval/enumeration operations are produced by the
`impl_non_fungible_token_*` macros.  The standard implementation itself is not
part of the repository sources, so the registry core (ownership store,
approval store, enumeration index, storage accountant, facade operations) is
modelled from the specification, while the wrapper-level definitions
(`nft_mint`, `token_metadata`, `nft_mint_default`) are translated directly
from `src/contract/src/lib.rs`.

Machine integers are modelled as `Nat` with explicit bounds where the spec
requires overflow to abort (`2 ^ 64` for approval ids and byte counts,
`2 ^ 128` for payment amounts).
-/

namespace HelloMint

/-- Per-token metadata record, translated from the standard
`TokenMetadata` structure used by `src/contract/src/lib.rs`. -/
structure TokenMetadata where
  title : Option String
  description : Option String
  media : Option String
  media_hash : Option String
  copies : Option Nat
  issued_at : Option String
  expires_at : Option String
  starts_at : Option String
  updated_at : Option String
  extra : Option String
  reference : Option String
  reference_hash : Option String
deriving DecidableEq, Repr

/-- The token view returned by mint and lookup operations, translated from
the standard `Token` structure used by `src/contract/src/lib.rs`. -/
structure Token where
  token_id : String
  owner_id : String
  metadata : Option TokenMetadata
  approved_account_ids : Option (List (String × Nat))
deriving DecidableEq, Repr

/-- Modelled from the spec: the error kinds of §7 (`TokenAlreadyExists`,
`TokenNotFound`, `Unauthorized`, `OwnerMismatch`, `SelfTransfer`,
`ApprovalNotFound`, `StaleApproval`, `InsufficientStorageDeposit`), plus
`Overflow` for the hard abort the spec requires on arithmetic overflow in
accounting computations. -/
inductive Err where
  | TokenAlreadyExists
  | TokenNotFound
  | Unauthorized
  | OwnerMismatch
  | SelfTransfer
  | ApprovalNotFound
  | StaleApproval
  | InsufficientStorageDeposit
  | Overflow
deriving DecidableEq, Repr

/-- Association-list lookup (the persistent-storage collaborator's `get`). -/
def alistGet {α : Type} : List (String × α) → String → Option α
  | [], _ => none
  | (k, v) :: t, q => if k = q then some v else alistGet t q

/-- Association-list insert-or-replace (the persistent-storage
collaborator's `set`). -/
def alistSet {α : Type} : List (String × α) → String → α → List (String × α)
  | [], q, v => [(q, v)]
  | (k, w) :: t, q, v => if k = q then (q, v) :: t else (k, w) :: alistSet t q v

/-- Association-list delete (the persistent-storage collaborator's
`delete`). -/
def alistRemove {α : Type} : List (String × α) → String → List (String × α)
  | [], _ => []
  | (k, w) :: t, q => if k = q then t else (k, w) :: alistRemove t q

/-- Maximum representable `u64` bound: byte counts and approval ids live
below this. -/
def U64_LIMIT : Nat := 2 ^ 64

/-- Maximum representable `u128` bound: payment amounts live below this. -/
def U128_LIMIT : Nat := 2 ^ 128

/-- Modelled from the spec: the registry state of §3 — the single minting
authority fixed at construction (`owner_id`), the ownership store
(`owner_by_id`), per-token metadata, the approval store (`approvals_by_id`
with the per-token `next_approval_id_by_id` counter), and the enumeration
index (`all_tokens`, `tokens_per_owner`).  Field names follow the standard
`NonFungibleToken` struct the contract instantiates. -/
structure Registry where
  owner_id : String
  owner_by_id : List (String × String)
  token_metadata_by_id : List (String × TokenMetadata)
  approvals_by_id : List (String × List (String × Nat))
  next_approval_id_by_id : List (String × Nat)
  all_tokens : List String
  tokens_per_owner : List (String × List String)
deriving DecidableEq, Repr

/-- Modelled from the spec: `Contract::new` fixes the minting authority
`owner_id` at initialization and starts with empty stores. -/
def Registry.new (owner_id : String) : Registry :=
  { owner_id := owner_id
    owner_by_id := []
    token_metadata_by_id := []
    approvals_by_id := []
    next_approval_id_by_id := []
    all_tokens := []
    tokens_per_owner := [] }

/-- The approval map of one token (empty when the token has none). -/
def approvalsOf (r : Registry) (token_id : String) : List (String × Nat) :=
  (alistGet r.approvals_by_id token_id).getD []

/-- The `next_approval_id` counter of one token (`1` before any approval,
matching the first issued id observed by `test_approve`). -/
def nextOf (r : Registry) (token_id : String) : Nat :=
  (alistGet r.next_approval_id_by_id token_id).getD 1

/-- Modelled from the spec: the Storage Accountant contract of §4.1,
`measure(pre_bytes, post_bytes, attached_payment)`.  Growth charges
`(post_bytes - pre_bytes) * byte_cost` and fails with
`InsufficientStorageDeposit` when the attached payment is insufficient,
refunding the excess otherwise; shrinkage refunds the attached payment plus
the freed-byte value; equality refunds the attached payment.  Arithmetic
that would exceed the `u128` payment domain aborts with `Overflow` as §7
requires.  Returns the amount scheduled for refund. -/
def measure (byte_cost pre_bytes post_bytes attached : Nat) : Except Err Nat :=
  if pre_bytes < post_bytes then
    if U128_LIMIT ≤ (post_bytes - pre_bytes) * byte_cost then .error .Overflow
    else if attached < (post_bytes - pre_bytes) * byte_cost then
      .error .InsufficientStorageDeposit
    else .ok (attached - (post_bytes - pre_bytes) * byte_cost)
  else if post_bytes < pre_bytes then
    if U128_LIMIT ≤ attached + (pre_bytes - post_bytes) * byte_cost then .error .Overflow
    else .ok (attached + (pre_bytes - post_bytes) * byte_cost)
  else .ok attached

/-- Modelled from the spec: the state after a successful mint — ownership
insert, metadata attach, empty approval map, fresh approval counter, and
the Enumeration Index `on_mint` update. -/
def mintedState (r : Registry) (token_id receiver_id : String)
    (md : TokenMetadata) : Registry :=
  { r with
    owner_by_id := alistSet r.owner_by_id token_id receiver_id
    token_metadata_by_id := alistSet r.token_metadata_by_id token_id md
    approvals_by_id := alistSet r.approvals_by_id token_id []
    next_approval_id_by_id := alistSet r.next_approval_id_by_id token_id 1
    all_tokens := r.all_tokens ++ [token_id]
    tokens_per_owner :=
      alistSet r.tokens_per_owner receiver_id
        ((alistGet r.tokens_per_owner receiver_id).getD [] ++ [token_id]) }

/-- Modelled from the spec: `NonFungibleToken::internal_mint` as §4.5
describes the facade mint — the caller must be the minting authority fixed
at initialization (`Unauthorized` otherwise), the token id must be fresh
(`TokenAlreadyExists` otherwise); on success the mutation is applied and
the Storage Accountant reconciles the byte delta against the attached
payment as the last step, measuring the actual post-mutation footprint.
`bytesOf` is the persistent-storage collaborator's byte-usage report.
Returns the new state, the minted token view, and the scheduled refund. -/
def internal_mint (bytesOf : Registry → Nat) (byte_cost : Nat) (r : Registry)
    (caller : String) (attached : Nat) (token_id receiver_id : String)
    (md : TokenMetadata) : Except Err (Registry × Token × Nat) :=
  if caller ≠ r.owner_id then .error .Unauthorized
  else if (alistGet r.owner_by_id token_id).isSome then .error .TokenAlreadyExists
  else
    match measure byte_cost (bytesOf r)
        (bytesOf (mintedState r token_id receiver_id md)) attached with
    | .error e => .error e
    | .ok refund =>
        .ok (mintedState r token_id receiver_id md,
             { token_id := token_id, owner_id := receiver_id,
               metadata := some md, approved_account_ids := some [] }, refund)

/-- Translated from `Contract::nft_mint` in `src/contract/src/lib.rs`: delegates to
`internal_mint` with the supplied per-token metadata. -/
def nft_mint (bytesOf : Registry → Nat) (byte_cost : Nat) (r : Registry)
    (caller : String) (attached : Nat) (token_id receiver_id : String)
    (token_metadata : TokenMetadata) : Except Err (Registry × Token × Nat) :=
  internal_mint bytesOf byte_cost r caller attached token_id receiver_id token_metadata

/-- Translated from `Contract::token_metadata` in `src/contract/src/lib.rs`: the fixed
default metadata record. -/
def token_metadata : TokenMetadata :=
  { title := some "NSeven Limited Edition"
    description := some "Limited Edition original NSeven NEARWarrior"
    media := some "https://i.ibb.co/1n9fjsd/1589875387-16.png"
    media_hash := none
    copies := some 1
    issued_at := none
    expires_at := none
    starts_at := none
    updated_at := none
    extra := none
    reference := none
    reference_hash := none }

/-- Translated from `Contract::nft_mint_default` in `src/contract/src/lib.rs`: delegates
to `internal_mint` with an inline copy of the fixed metadata record. -/
def nft_mint_default (bytesOf : Registry → Nat) (byte_cost : Nat) (r : Registry)
    (caller : String) (attached : Nat) (token_id receiver_id : String) :
    Except Err (Registry × Token × Nat) :=
  internal_mint bytesOf byte_cost r caller attached token_id receiver_id
    { title := some "NSeven Limited Edition"
      description := some "Limited Edition original NSeven NEARWarrior"
      media := some "https://i.ibb.co/1n9fjsd/1589875387-16.png"
      media_hash := none
      copies := some 1
      issued_at := none
      expires_at := none
      starts_at := none
      updated_at := none
      extra := none
      reference := none
      reference_hash := none }

/-- Modelled from the spec: the approval query of §4.3,
`is_approved(token_id, account, optional_expected_approval_id)` — true iff
the account is present in the token's approval map and, when an expected id
is supplied, the stored id equals it exactly.  A pure query: it takes the
registry by value and returns only a boolean. -/
def nft_is_approved (r : Registry) (token_id account_id : String)
    (expected_approval_id : Option Nat) : Bool :=
  match alistGet (approvalsOf r token_id) account_id with
  | none => false
  | some stored =>
      match expected_approval_id with
      | none => true
      | some e => stored = e

/-- Modelled from the spec: the transfer authorization rule of §4.5 — the
caller must equal the current owner, or hold a valid approval with the
supplied id (`StaleApproval` on mismatch), or, with no id supplied, any
valid approval is accepted.  Returns the error when unauthorized. -/
def transferAuthError (r : Registry) (caller token_id owner : String)
    (approval_id : Option Nat) : Option Err :=
  if caller = owner then none
  else
    match alistGet (approvalsOf r token_id) caller with
    | none => some .Unauthorized
    | some stored =>
        match approval_id with
        | none => none
        | some id => if stored = id then none else some .StaleApproval

/-- Modelled from the spec: the state after a successful transfer —
Ownership Store `set_owner`, Approval Store `revoke_all` for that token,
and the Enumeration Index `on_transfer(old_owner, new_owner)` update. -/
def transferredState (r : Registry) (token_id owner receiver_id : String) :
    Registry :=
  { r with
    owner_by_id := alistSet r.owner_by_id token_id receiver_id
    approvals_by_id := alistSet r.approvals_by_id token_id []
    tokens_per_owner :=
      alistSet
        (alistSet r.tokens_per_owner owner
          (((alistGet r.tokens_per_owner owner).getD []).filter
            (fun t => t ≠ token_id)))
        receiver_id
        ((alistGet (alistSet r.tokens_per_owner owner
            (((alistGet r.tokens_per_owner owner).getD []).filter
              (fun t => t ≠ token_id))) receiver_id).getD [] ++ [token_id]) }

/-- Modelled from the spec: the facade transfer of §4.5 —
`TokenNotFound` for an absent token; `OwnerMismatch` when the supplied
`expected_owner_id` disagrees with the current owner; the authorization
rule of `transferAuthError`; `SelfTransfer` when the receiver already owns
the token; on success the mutation of `transferredState` followed by the
Storage Accountant reconciliation.  Returns the new state and the
scheduled refund. -/
def nft_transfer (bytesOf : Registry → Nat) (byte_cost : Nat) (r : Registry)
    (caller : String) (attached : Nat) (receiver_id token_id : String)
    (expected_owner_id : Option String) (approval_id : Option Nat) :
    Except Err (Registry × Nat) :=
  match alistGet r.owner_by_id token_id with
  | none => .error .TokenNotFound
  | some owner =>
      if expected_owner_id.getD owner ≠ owner then .error .OwnerMismatch
      else
        match transferAuthError r caller token_id owner approval_id with
        | some e => .error e
        | none =>
            if receiver_id = owner then .error .SelfTransfer
            else
              match measure byte_cost (bytesOf r)
                  (bytesOf (transferredState r token_id owner receiver_id)) attached with
              | .error e => .error e
              | .ok refund => .ok (transferredState r token_id owner receiver_id, refund)

/-- Modelled from the spec: the state after a successful approve — the
grantee recorded under the issued id (the token's current
`next_approval_id`) and the counter incremented. -/
def approvedState (r : Registry) (token_id account_id : String) : Registry :=
  { r with
    approvals_by_id :=
      alistSet r.approvals_by_id token_id
        (alistSet (approvalsOf r token_id) account_id (nextOf r token_id))
    next_approval_id_by_id :=
      alistSet r.next_approval_id_by_id token_id (nextOf r token_id + 1) }

/-- Modelled from the spec: the facade approve of §4.3/§4.5 — only the
current owner may call it (`TokenNotFound` / `Unauthorized` otherwise);
it issues the token's `next_approval_id`, increments the counter (aborting
with `Overflow` instead of wrapping past the `u64` domain, as §7 requires),
records `grantee -> id`, and runs the Storage Accountant last.  Returns the
new state, the issued `ApprovalId`, and the scheduled refund. -/
def nft_approve (bytesOf : Registry → Nat) (byte_cost : Nat) (r : Registry)
    (caller : String) (attached : Nat) (token_id account_id : String) :
    Except Err (Registry × Nat × Nat) :=
  match alistGet r.owner_by_id token_id with
  | none => .error .TokenNotFound
  | some owner =>
      if caller ≠ owner then .error .Unauthorized
      else if U64_LIMIT ≤ nextOf r token_id + 1 then .error .Overflow
      else
        match measure byte_cost (bytesOf r)
            (bytesOf (approvedState r token_id account_id)) attached with
        | .error e => .error e
        | .ok refund =>
            .ok (approvedState r token_id account_id, nextOf r token_id, refund)

/-- Modelled from the spec: the state after a successful revoke — the
grantee's entry removed from the token's approval map. -/
def revokedState (r : Registry) (token_id account_id : String) : Registry :=
  { r with
    approvals_by_id :=
      alistSet r.approvals_by_id token_id
        (alistRemove (approvalsOf r token_id) account_id) }

/-- Modelled from the spec: the facade revoke of §4.3/§4.5 — only the
current owner may call it; removes the grantee's entry, failing with
`ApprovalNotFound` when absent; the Storage Accountant runs last (the
shrink path schedules a refund for the freed bytes). -/
def nft_revoke (bytesOf : Registry → Nat) (byte_cost : Nat) (r : Registry)
    (caller : String) (attached : Nat) (token_id account_id : String) :
    Except Err (Registry × Nat) :=
  match alistGet r.owner_by_id token_id with
  | none => .error .TokenNotFound
  | some owner =>
      if caller ≠ owner then .error .Unauthorized
      else
        match alistGet (approvalsOf r token_id) account_id with
        | none => .error .ApprovalNotFound
        | some _ =>
            match measure byte_cost (bytesOf r)
                (bytesOf (revokedState r token_id account_id)) attached with
            | .error e => .error e
            | .ok refund => .ok (revokedState r token_id account_id, refund)

/-- Modelled from the spec: the state after a successful revoke-all — the
token's approval map cleared. -/
def revokeAllState (r : Registry) (token_id : String) : Registry :=
  { r with approvals_by_id := alistSet r.approvals_by_id token_id [] }

/-- Modelled from the spec: the facade revoke-all of §4.3/§4.5 — only the
current owner may call it; clears the token's entire approval map (a no-op
that never fails when already empty); the Storage Accountant runs last. -/
def nft_revoke_all (bytesOf : Registry → Nat) (byte_cost : Nat) (r : Registry)
    (caller : String) (attached : Nat) (token_id : String) :
    Except Err (Registry × Nat) :=
  match alistGet r.owner_by_id token_id with
  | none => .error .TokenNotFound
  | some owner =>
      if caller ≠ owner then .error .Unauthorized
      else
        match measure byte_cost (bytesOf r)
            (bytesOf (revokeAllState r token_id)) attached with
        | .error e => .error e
        | .ok refund => .ok (revokeAllState r token_id, refund)

/-- Modelled from the spec: the call-atomicity semantics of §5 — a call that
aborts leaves the caller-visible registry exactly as it was, a call that
completes commits the mutated registry. -/
def commit {α : Type} (r : Registry) (res : Except Err (Registry × α)) : Registry :=
  match res with
  | .ok (r', _) => r'
  | .error _ => r

/-- Modelled from the spec: one successful mutating call of the public
surface (§6), as a step relation between registry states. -/
inductive Step : Registry → Registry → Prop where
  | mint (bytesOf : Registry → Nat) (byte_cost : Nat) (r : Registry)
      (caller : String) (attached : Nat) (token_id receiver_id : String)
      (md : TokenMetadata) (r' : Registry) (tok : Token) (refund : Nat) :
      internal_mint bytesOf byte_cost r caller attached token_id receiver_id md
        = .ok (r', tok, refund) → Step r r'
  | transfer (bytesOf : Registry → Nat) (byte_cost : Nat) (r : Registry)
      (caller : String) (attached : Nat) (receiver_id token_id : String)
      (expected_owner_id : Option String) (approval_id : Option Nat)
      (r' : Registry) (refund : Nat) :
      nft_transfer bytesOf byte_cost r caller attached receiver_id token_id
        expected_owner_id approval_id = .ok (r', refund) → Step r r'
  | approve (bytesOf : Registry → Nat) (byte_cost : Nat) (r : Registry)
      (caller : String) (attached : Nat) (token_id account_id : String)
      (r' : Registry) (id refund : Nat) :
      nft_approve bytesOf byte_cost r caller attached token_id account_id
        = .ok (r', id, refund) → Step r r'
  | revoke (bytesOf : Registry → Nat) (byte_cost : Nat) (r : Registry)
      (caller : String) (attached : Nat) (token_id account_id : String)
      (r' : Registry) (refund : Nat) :
      nft_revoke bytesOf byte_cost r caller attached token_id account_id
        = .ok (r', refund) → Step r r'
  | revoke_all (bytesOf : Registry → Nat) (byte_cost : Nat) (r : Registry)
      (caller : String) (attached : Nat) (token_id : String)
      (r' : Registry) (refund : Nat) :
      nft_revoke_all bytesOf byte_cost r caller attached token_id
        = .ok (r', refund) → Step r r'

/-! Concrete states used to exercise the operations on closed inputs. -/

/-- A byte-usage report that never changes: with it the Storage Accountant
always takes the equal-footprint path. -/
def flatBytes : Registry → Nat := fun _ => 0

/-- A byte-usage report that charges one byte per ownership record: minting
a fresh token grows the footprint by exactly one byte. -/
def growBytes : Registry → Nat := fun r => r.owner_by_id.length

/-- A byte-usage report that charges one byte per approval record of token
`t`: approving a new grantee on `t` grows the footprint by one byte. -/
def approvalBytes : Registry → Nat := fun r => (approvalsOf r "t").length

/-- Freshly initialized registry whose minting authority is `alice`. -/
def demo0 : Registry := Registry.new "alice"

/-- State of `demo0` after `alice` mints token `t` to herself. -/
def demo1 : Registry := mintedState demo0 "t" "alice" token_metadata

/-- State of `demo1` after `alice` approves `bob` (issued id `1`). -/
def demo2 : Registry :=
  { demo1 with
    approvals_by_id :=
      alistSet demo1.approvals_by_id "t" (alistSet (approvalsOf demo1 "t") "bob" 1)
    next_approval_id_by_id := alistSet demo1.next_approval_id_by_id "t" 2 }

/-- State of `demo2` after `alice` re-approves `bob` (issued id `2`). -/
def demo3 : Registry :=
  { demo2 with
    approvals_by_id :=
      alistSet demo2.approvals_by_id "t" (alistSet (approvalsOf demo2 "t") "bob" 2)
    next_approval_id_by_id := alistSet demo2.next_approval_id_by_id "t" 3 }

/-- State of `demo2` after `alice` transfers token `t` to `carol`. -/
def demoT : Registry := transferredState demo2 "t" "alice" "carol"

/-! Association-list lemmas. -/

theorem alistGet_set_self {α : Type} (l : List (String × α)) (k : String) (v : α) :
    alistGet (alistSet l k v) k = some v := by
  induction l with
  | nil => simp [alistGet, alistSet]
  | cons hd t ih =>
      obtain ⟨k', w⟩ := hd
      by_cases h : k' = k <;> simp [alistGet, alistSet, h, ih]

theorem alistGet_set_ne {α : Type} (l : List (String × α)) (k q : String) (v : α)
    (h : k ≠ q) : alistGet (alistSet l k v) q = alistGet l q := by
  induction l with
  | nil => simp [alistGet, alistSet, h]
  | cons hd t ih =>
      obtain ⟨k', w⟩ := hd
      by_cases h' : k' = k
      · subst h'
        simp [alistGet, alistSet, h]
      · simp [alistGet, alistSet, h']
        by_cases h'' : k' = q <;> simp [h'', ih]

theorem alistGet_eq_none_iff {α : Type} (l : List (String × α)) (k : String) :
    alistGet l k = none ↔ k ∉ l.map Prod.fst := by
  induction l with
  | nil => simp [alistGet]
  | cons hd t ih =>
      obtain ⟨k', w⟩ := hd
      by_cases h : k' = k
      · subst h
        simp [alistGet]
      · have h2 : k ≠ k' := fun hh => h hh.symm
        simp [alistGet, h, h2, ih]

theorem keys_alistSet_fresh {α : Type} (l : List (String × α)) (k : String) (v : α)
    (h : alistGet l k = none) :
    (alistSet l k v).map Prod.fst = l.map Prod.fst ++ [k] := by
  induction l with
  | nil => simp [alistSet]
  | cons hd t ih =>
      obtain ⟨k', w⟩ := hd
      by_cases h' : k' = k
      · subst h'
        simp [alistGet] at h
      · simp [alistGet, h'] at h
        simp [alistSet, h', ih h]

/-! Storage Accountant lemmas. -/

theorem measure_grow_ok (c pre post attached : Nat) (h : pre < post)
    (hfit : (post - pre) * c < U128_LIMIT) (hatt : (post - pre) * c ≤ attached) :
    measure c pre post attached = .ok (attached - (post - pre) * c) := by
  simp [measure, h, not_le.mpr hfit, not_lt.mpr hatt]

theorem measure_grow_insufficient (c pre post attached : Nat) (h : pre < post)
    (hfit : (post - pre) * c < U128_LIMIT) (hatt : attached < (post - pre) * c) :
    measure c pre post attached = .error .InsufficientStorageDeposit := by
  simp [measure, h, not_le.mpr hfit, hatt]

theorem measure_error_kinds (c pre post attached : Nat) (e : Err)
    (h : measure c pre post attached = .error e) :
    e = .Overflow ∨ e = .InsufficientStorageDeposit := by
  unfold measure at h
  split at h
  · split at h
    · exact Or.inl (Except.error.inj h).symm
    · split at h
      · exact Or.inr (Except.error.inj h).symm
      · exact absurd h (by simp)
  · split at h
    · split at h
      · exact Or.inl (Except.error.inj h).symm
      · exact absurd h (by simp)
    · exact absurd h (by simp)

/-! Inversion lemmas: what a successful call tells us about its inputs and
its resulting state. -/

theorem internal_mint_ok_inv (b : Registry → Nat) (c : Nat) (r : Registry)
    (caller : String) (att : Nat) (tid rid : String) (md : TokenMetadata)
    (r' : Registry) (tok : Token) (refund : Nat)
    (h : internal_mint b c r caller att tid rid md = .ok (r', tok, refund)) :
    caller = r.owner_id ∧ alistGet r.owner_by_id tid = none ∧
    r' = mintedState r tid rid md ∧
    tok = { token_id := tid, owner_id := rid, metadata := some md,
            approved_account_ids := some [] } ∧
    measure c (b r) (b (mintedState r tid rid md)) att = .ok refund := by
  unfold internal_mint at h
  split at h
  · exact absurd h (by simp)
  next h1 =>
    split at h
    · exact absurd h (by simp)
    next h2 =>
      split at h
      · exact absurd h (by simp)
      next refund' heq =>
        simp only [Except.ok.injEq, Prod.mk.injEq] at h
        obtain ⟨hr, htok, href⟩ := h
        refine ⟨not_not.mp h1, Option.not_isSome_iff_eq_none.mp h2, hr.symm, htok.symm, ?_⟩
        rw [heq, href]

theorem nft_transfer_ok_inv (b : Registry → Nat) (c : Nat) (r : Registry)
    (caller : String) (att : Nat) (rid tid : String)
    (eo : Option String) (aid : Option Nat) (r' : Registry) (refund : Nat)
    (h : nft_transfer b c r caller att rid tid eo aid = .ok (r', refund)) :
    ∃ owner, alistGet r.owner_by_id tid = some owner ∧
      eo.getD owner = owner ∧
      transferAuthError r caller tid owner aid = none ∧
      rid ≠ owner ∧
      r' = transferredState r tid owner rid ∧
      measure c (b r) (b (transferredState r tid owner rid)) att = .ok refund := by
  unfold nft_transfer at h
  split at h
  · exact absurd h (by simp)
  next owner howner =>
    refine ⟨owner, howner, ?_⟩
    split at h
    · exact absurd h (by simp)
    next h1 =>
      split at h
      · exact absurd h (by simp)
      next h2 =>
        split at h
        · exact absurd h (by simp)
        next h3 =>
          split at h
          · exact absurd h (by simp)
          next refund' heq =>
            simp only [Except.ok.injEq, Prod.mk.injEq] at h
            obtain ⟨hr, href⟩ := h
            exact ⟨not_not.mp h1, h2, h3, hr.symm, by rw [heq, href]⟩

theorem nft_approve_ok_inv (b : Registry → Nat) (c : Nat) (r : Registry)
    (caller : String) (att : Nat) (tid acct : String)
    (r' : Registry) (id refund : Nat)
    (h : nft_approve b c r caller att tid acct = .ok (r', id, refund)) :
    alistGet r.owner_by_id tid = some caller ∧
    id = nextOf r tid ∧ id + 1 < U64_LIMIT ∧
    r'.owner_id = r.owner_id ∧
    r'.owner_by_id = r.owner_by_id ∧
    nextOf r' tid = id + 1 ∧
    approvalsOf r' tid = alistSet (approvalsOf r tid) acct id ∧
    r'.next_approval_id_by_id = alistSet r.next_approval_id_by_id tid (id + 1) := by
  unfold nft_approve at h
  split at h
  · exact absurd h (by simp)
  next owner howner =>
    split at h
    · exact absurd h (by simp)
    next h1 =>
      split at h
      · exact absurd h (by simp)
      next h2 =>
        split at h
        · exact absurd h (by simp)
        next refund' heq =>
          simp only [Except.ok.injEq, Prod.mk.injEq] at h
          obtain ⟨hr, hid, href⟩ := h
          have hcaller : caller = owner := not_not.mp h1
          subst hcaller
          subst hr
          subst href
          subst hid
          refine ⟨howner, rfl, lt_of_not_le h2, rfl, rfl, ?_, ?_, rfl⟩
          · simp [nextOf, approvedState, alistGet_set_self]
          · simp [approvalsOf, approvedState, nextOf, alistGet_set_self]

theorem nft_revoke_ok_inv (b : Registry → Nat) (c : Nat) (r : Registry)
    (caller : String) (att : Nat) (tid acct : String)
    (r' : Registry) (refund : Nat)
    (h : nft_revoke b c r caller att tid acct = .ok (r', refund)) :
    alistGet r.owner_by_id tid = some caller ∧
    r'.owner_id = r.owner_id ∧
    r'.owner_by_id = r.owner_by_id ∧
    r'.next_approval_id_by_id = r.next_approval_id_by_id := by
  unfold nft_revoke at h
  split at h
  · exact absurd h (by simp)
  next owner howner =>
    split at h
    · exact absurd h (by simp)
    next h1 =>
      split at h
      · exact absurd h (by simp)
      next stored hstored =>
        split at h
        · exact absurd h (by simp)
        next refund' heq =>
          simp only [Except.ok.injEq, Prod.mk.injEq] at h
          obtain ⟨hr, href⟩ := h
          have hcaller : caller = owner := not_not.mp h1
          subst hcaller
          subst hr
          exact ⟨howner, rfl, rfl, rfl⟩

theorem nft_revoke_all_ok_inv (b : Registry → Nat) (c : Nat) (r : Registry)
    (caller : String) (att : Nat) (tid : String)
    (r' : Registry) (refund : Nat)
    (h : nft_revoke_all b c r caller att tid = .ok (r', refund)) :
    alistGet r.owner_by_id tid = some caller ∧
    r'.owner_id = r.owner_id ∧
    r'.owner_by_id = r.owner_by_id ∧
    r'.next_approval_id_by_id = r.next_approval_id_by_id := by
  unfold nft_revoke_all at h
  split at h
  · exact absurd h (by simp)
  next owner howner =>
    split at h
    · exact absurd h (by simp)
    next h1 =>
      split at h
      · exact absurd h (by simp)
      next refund' heq =>
        simp only [Except.ok.injEq, Prod.mk.injEq] at h
        obtain ⟨hr, href⟩ := h
        have hcaller : caller = owner := not_not.mp h1
        subst hcaller
        subst hr
        exact ⟨howner, rfl, rfl, rfl⟩

theorem transferAuthError_kinds (r : Registry) (caller tid owner : String)
    (aid : Option Nat) (e : Err)
    (h : transferAuthError r caller tid owner aid = some e) :
    e = .Unauthorized ∨ e = .StaleApproval := by
  unfold transferAuthError at h
  split at h
  · exact absurd h (by simp)
  · split at h
    · exact Or.inl (Option.some.inj h).symm
    · split at h
      · exact absurd h (by simp)
      · split at h
        · exact absurd h (by simp)
        · exact Or.inr (Option.some.inj h).symm

/-! Dynamics: facts preserved along every successful mutating call. -/

theorem step_owner_id_eq (r r' : Registry) (h : Step r r') :
    r'.owner_id = r.owner_id := by
  cases h with
  | mint b c r0 caller att tid rid md r'' tok refund heq =>
      obtain ⟨_, _, hr, _, _⟩ := internal_mint_ok_inv _ _ _ _ _ _ _ _ _ _ _ heq
      subst hr
      rfl
  | transfer b c r0 caller att rid tid eo aid r'' refund heq =>
      obtain ⟨owner, _, _, _, _, hr, _⟩ := nft_transfer_ok_inv _ _ _ _ _ _ _ _ _ _ _ heq
      subst hr
      rfl
  | approve b c r0 caller att tid acct r'' id refund heq =>
      exact (nft_approve_ok_inv _ _ _ _ _ _ _ _ _ _ heq).2.2.2.1
  | revoke b c r0 caller att tid acct r'' refund heq =>
      exact (nft_revoke_ok_inv _ _ _ _ _ _ _ _ _ heq).2.1
  | revoke_all b c r0 caller att tid r'' refund heq =>
      exact (nft_revoke_all_ok_inv _ _ _ _ _ _ _ _ heq).2.1

theorem step_token_mono (r r' : Registry) (h : Step r r') (tid : String)
    (hex : (alistGet r.owner_by_id tid).isSome) :
    (alistGet r'.owner_by_id tid).isSome ∧ nextOf r tid ≤ nextOf r' tid := by
  cases h with
  | mint b c r0 caller att tid0 rid md r'' tok refund heq =>
      obtain ⟨_, hfresh, hr, _, _⟩ := internal_mint_ok_inv _ _ _ _ _ _ _ _ _ _ _ heq
      subst hr
      have hne : tid0 ≠ tid := by
        intro he
        subst he
        rw [hfresh] at hex
        simp at hex
      constructor
      · show (alistGet (alistSet r.owner_by_id tid0 rid) tid).isSome
        rw [alistGet_set_ne _ _ _ _ hne]
        exact hex
      · show nextOf r tid ≤ (alistGet (alistSet r.next_approval_id_by_id tid0 1) tid).getD 1
        rw [alistGet_set_ne _ _ _ _ hne]
        exact le_refl _
  | transfer b c r0 caller att rid tid0 eo aid r'' refund heq =>
      obtain ⟨owner, howner, _, _, _, hr, _⟩ := nft_transfer_ok_inv _ _ _ _ _ _ _ _ _ _ _ heq
      subst hr
      constructor
      · show (alistGet (alistSet r.owner_by_id tid0 rid) tid).isSome
        by_cases he : tid0 = tid
        · subst he
          rw [alistGet_set_self]
          rfl
        · rw [alistGet_set_ne _ _ _ _ he]
          exact hex
      · exact le_refl _
  | approve b c r0 caller att tid0 acct r'' id refund heq =>
      obtain ⟨_, hid, _, _, hown, _, _, hnext⟩ := nft_approve_ok_inv _ _ _ _ _ _ _ _ _ _ heq
      constructor
      · rw [hown]
        exact hex
      · unfold nextOf
        rw [hnext]
        by_cases he : tid0 = tid
        · subst he
          rw [alistGet_set_self]
          rw [hid]
          exact Nat.le_succ _
        · rw [alistGet_set_ne _ _ _ _ he]
  | revoke b c r0 caller att tid0 acct r'' refund heq =>
      obtain ⟨_, _, hown, hnext⟩ := nft_revoke_ok_inv _ _ _ _ _ _ _ _ _ heq
      refine ⟨by rw [hown]; exact hex, ?_⟩
      unfold nextOf
      rw [hnext]
  | revoke_all b c r0 caller att tid0 r'' refund heq =>
      obtain ⟨_, _, hown, hnext⟩ := nft_revoke_all_ok_inv _ _ _ _ _ _ _ _ heq
      refine ⟨by rw [hown]; exact hex, ?_⟩
      unfold nextOf
      rw [hnext]

theorem reach_token_mono (r r2 : Registry) (h : Relation.ReflTransGen Step r r2)
    (tid : String) (hex : (alistGet r.owner_by_id tid).isSome) :
    (alistGet r2.owner_by_id tid).isSome ∧ nextOf r tid ≤ nextOf r2 tid := by
  induction h with
  | refl => exact ⟨hex, le_refl _⟩
  | tail hpre hstep ih =>
      obtain ⟨hex1, hle1⟩ := ih
      obtain ⟨hex2, hle2⟩ := step_token_mono _ _ hstep tid hex1
      exact ⟨hex2, le_trans hle1 hle2⟩

theorem internal_mint_of_measure (b : Registry → Nat) (c : Nat) (r : Registry)
    (caller : String) (att : Nat) (tid rid : String) (md : TokenMetadata)
    (refund : Nat) (hauth : caller = r.owner_id)
    (hfresh : alistGet r.owner_by_id tid = none)
    (hm : measure c (b r) (b (mintedState r tid rid md)) att = .ok refund) :
    internal_mint b c r caller att tid rid md
      = .ok (mintedState r tid rid md,
             { token_id := tid, owner_id := rid, metadata := some md,
               approved_account_ids := some [] }, refund) := by
  subst hauth
  simp [internal_mint, hfresh, hm]

theorem internal_mint_of_measure_error (b : Registry → Nat) (c : Nat)
    (r : Registry) (caller : String) (att : Nat) (tid rid : String)
    (md : TokenMetadata) (e : Err) (hauth : caller = r.owner_id)
    (hfresh : alistGet r.owner_by_id tid = none)
    (hm : measure c (b r) (b (mintedState r tid rid md)) att = .error e) :
    internal_mint b c r caller att tid rid md = .error e := by
  subst hauth
  simp [internal_mint, hfresh, hm]

theorem nft_transfer_of_measure (b : Registry → Nat) (c : Nat) (r : Registry)
    (caller : String) (att : Nat) (rid tid : String) (eo : Option String)
    (aid : Option Nat) (owner : String) (res : Except Err Nat)
    (howner : alistGet r.owner_by_id tid = some owner)
    (heo : eo.getD owner = owner)
    (hauth : transferAuthError r caller tid owner aid = none)
    (hrid : rid ≠ owner)
    (hm : measure c (b r) (b (transferredState r tid owner rid)) att = res) :
    nft_transfer b c r caller att rid tid eo aid
      = res.map (fun refund => (transferredState r tid owner rid, refund)) := by
  cases res with
  | error e => simp [nft_transfer, howner, heo, hauth, hrid, hm, Except.map]
  | ok refund => simp [nft_transfer, howner, heo, hauth, hrid, hm, Except.map]

theorem nft_approve_of_measure (b : Registry → Nat) (c : Nat) (r : Registry)
    (caller : String) (att : Nat) (tid acct : String) (res : Except Err Nat)
    (howner : alistGet r.owner_by_id tid = some caller)
    (hfit : nextOf r tid + 1 < U64_LIMIT)
    (hm : measure c (b r) (b (approvedState r tid acct)) att = res) :
    nft_approve b c r caller att tid acct
      = res.map (fun refund => (approvedState r tid acct, nextOf r tid, refund)) := by
  cases res with
  | error e => simp [nft_approve, howner, not_le.mpr hfit, hm, Except.map]
  | ok refund => simp [nft_approve, howner, not_le.mpr hfit, hm, Except.map]

theorem nft_revoke_of_measure (b : Registry → Nat) (c : Nat) (r : Registry)
    (caller : String) (att : Nat) (tid acct : String) (stored : Nat)
    (res : Except Err Nat)
    (howner : alistGet r.owner_by_id tid = some caller)
    (hst : alistGet (approvalsOf r tid) acct = some stored)
    (hm : measure c (b r) (b (revokedState r tid acct)) att = res) :
    nft_revoke b c r caller att tid acct
      = res.map (fun refund => (revokedState r tid acct, refund)) := by
  cases res with
  | error e => simp [nft_revoke, howner, hst, hm, Except.map]
  | ok refund => simp [nft_revoke, howner, hst, hm, Except.map]

theorem nft_revoke_all_of_measure (b : Registry → Nat) (c : Nat) (r : Registry)
    (caller : String) (att : Nat) (tid : String) (res : Except Err Nat)
    (howner : alistGet r.owner_by_id tid = some caller)
    (hm : measure c (b r) (b (revokeAllState r tid)) att = res) :
    nft_revoke_all b c r caller att tid
      = res.map (fun refund => (revokeAllState r tid, refund)) := by
  cases res with
  | error e => simp [nft_revoke_all, howner, hm, Except.map]
  | ok refund => simp [nft_revoke_all, howner, hm, Except.map]

theorem measure_growth_triple (c pre post Δ k : Nat)
    (hΔ : post = pre + Δ) (hΔpos : 0 < Δ) (hcpos : 0 < c)
    (hfit : Δ * c + k < U128_LIMIT) :
    measure c pre post (Δ * c) = .ok 0
    ∧ measure c pre post (Δ * c - 1) = .error .InsufficientStorageDeposit
    ∧ measure c pre post (Δ * c + k) = .ok k
    ∧ (∀ att, att < Δ * c → measure c pre post att = .error .InsufficientStorageDeposit)
    ∧ (∀ att, Δ * c ≤ att → measure c pre post att = .ok (att - Δ * c)) := by
  have hgrow : pre < post := by omega
  have hdelta : post - pre = Δ := by omega
  have hfitm : Δ * c < U128_LIMIT := by omega
  have hpos : 0 < Δ * c := Nat.mul_pos hΔpos hcpos
  have hok : ∀ att, Δ * c ≤ att → measure c pre post att = .ok (att - Δ * c) := by
    intro att hle
    have h := measure_grow_ok c pre post att hgrow
      (by rw [hdelta]; exact hfitm) (by rw [hdelta]; exact hle)
    rwa [hdelta] at h
  have hbad : ∀ att, att < Δ * c →
      measure c pre post att = .error .InsufficientStorageDeposit := by
    intro att hlt
    exact measure_grow_insufficient c pre post att hgrow
      (by rw [hdelta]; exact hfitm) (by rw [hdelta]; exact hlt)
  refine ⟨?_, hbad _ (by omega), ?_, hbad, hok⟩
  · have h := hok (Δ * c) (le_refl _)
    rwa [Nat.sub_self] at h
  · have h := hok (Δ * c + k) (Nat.le_add_right _ _)
    have he : Δ * c + k - Δ * c = k := by omega
    rwa [he] at h

/-! Claim theorems. -/

/-- Claim C10: `nft_mint_default(token_id, receiver_id)` is behaviorally
identical to `nft_mint` called with the fixed `token_metadata` record
(title `NSeven Limited Edition`, description
`Limited Edition original NSeven NEARWarrior`, the fixed media URL,
`copies = 1`, every other field `None`) — both delegate to the same
`internal_mint`, so the minting-authority check and storage-deposit
accounting coincide as well. -/
theorem nft_mint_default_eq_nft_mint (bytesOf : Registry → Nat) (byte_cost : Nat)
    (r : Registry) (caller : String) (attached : Nat) (token_id receiver_id : String) :
    nft_mint_default bytesOf byte_cost r caller attached token_id receiver_id
      = nft_mint bytesOf byte_cost r caller attached token_id receiver_id token_metadata
    ∧ token_metadata.title = some "NSeven Limited Edition"
    ∧ token_metadata.description = some "Limited Edition original NSeven NEARWarrior"
    ∧ token_metadata.media = some "https://i.ibb.co/1n9fjsd/1589875387-16.png"
    ∧ token_metadata.copies = some 1
    ∧ token_metadata.media_hash = none
    ∧ token_metadata.issued_at = none
    ∧ token_metadata.expires_at = none
    ∧ token_metadata.starts_at = none
    ∧ token_metadata.updated_at = none
    ∧ token_metadata.extra = none
    ∧ token_metadata.reference = none
    ∧ token_metadata.reference_hash = none :=
  ⟨rfl, rfl, rfl, rfl, rfl, rfl, rfl, rfl, rfl, rfl, rfl, rfl, rfl⟩

/-- Claim C8: every public mutating operation that raises an error leaves
the ownership store, approval store, and enumeration index observably
unchanged: the committed state after a failed call is exactly the pre-call
state (the call either commits every mutation or none). -/
theorem error_aborts_without_mutation (b : Registry → Nat) (c : Nat)
    (r : Registry) (caller : String) (att : Nat)
    (token_id receiver_id account_id : String) (md : TokenMetadata)
    (eo : Option String) (aid : Option Nat) (e : Err) :
    (internal_mint b c r caller att token_id receiver_id md = .error e →
       commit r (internal_mint b c r caller att token_id receiver_id md) = r)
    ∧ (nft_transfer b c r caller att receiver_id token_id eo aid = .error e →
       commit r (nft_transfer b c r caller att receiver_id token_id eo aid) = r)
    ∧ (nft_approve b c r caller att token_id account_id = .error e →
       commit r (nft_approve b c r caller att token_id account_id) = r)
    ∧ (nft_revoke b c r caller att token_id account_id = .error e →
       commit r (nft_revoke b c r caller att token_id account_id) = r)
    ∧ (nft_revoke_all b c r caller att token_id = .error e →
       commit r (nft_revoke_all b c r caller att token_id) = r) := by
  refine ⟨fun h => ?_, fun h => ?_, fun h => ?_, fun h => ?_, fun h => ?_⟩ <;>
    rw [h] <;> rfl

/-- Witness for C8: a mint by a caller other than the minting authority
fails and commits no mutation. -/
theorem error_aborts_without_mutation_witness :
    commit demo0 (internal_mint flatBytes 0 demo0 "mallory" 0 "t" "alice" token_metadata)
      = demo0 :=
  (error_aborts_without_mutation flatBytes 0 demo0 "mallory" 0 "t" "alice" "bob"
    token_metadata none none .Unauthorized).1 rfl

/-- Claim C5: `is_approved(token_id, account, expected?)` is true iff the
account is present in the token's approval map and, when an expected id is
supplied, the stored id equals it exactly; a mismatched id yields `false`
(not an error).  The query is a pure function of the registry state and
mutates nothing. -/
theorem is_approved_spec (r : Registry) (token_id account_id : String)
    (expected : Option Nat) :
    (nft_is_approved r token_id account_id expected = true ↔
      ∃ stored, alistGet (approvalsOf r token_id) account_id = some stored ∧
        (expected = none ∨ expected = some stored))
    ∧ (∀ stored e, alistGet (approvalsOf r token_id) account_id = some stored →
        stored ≠ e → nft_is_approved r token_id account_id (some e) = false) := by
  constructor
  · unfold nft_is_approved
    cases hst : alistGet (approvalsOf r token_id) account_id with
    | none => simp
    | some stored =>
        cases expected with
        | none => simp
        | some e => simp [eq_comm]
  · intro stored e hst hne
    unfold nft_is_approved
    rw [hst]
    simp [hne]

/-- Witness for C5: in the concrete registry where `bob` holds approval id
`1`, querying with the matching id reports true and a mismatched id reports
false. -/
theorem is_approved_spec_witness :
    nft_is_approved demo2 "t" "bob" (some 1) = true
    ∧ nft_is_approved demo2 "t" "bob" (some 5) = false :=
  ⟨(is_approved_spec demo2 "t" "bob" (some 1)).1.mpr ⟨1, rfl, Or.inr rfl⟩,
   (is_approved_spec demo2 "t" "bob" (some 5)).2 1 5 rfl (by decide)⟩

/-- Claim C3: a mint (`nft_mint` or `nft_mint_default`) succeeds only when
the caller is the single `owner_id` fixed at contract initialization, and
fails with `Unauthorized` for every other caller; initialization sets that
owner and no successful operation ever changes it. -/
theorem mint_requires_fixed_authority (b : Registry → Nat) (c : Nat)
    (r : Registry) (caller o : String) (att : Nat)
    (token_id receiver_id : String) (md : TokenMetadata) :
    (caller ≠ r.owner_id →
       nft_mint b c r caller att token_id receiver_id md = .error .Unauthorized
       ∧ nft_mint_default b c r caller att token_id receiver_id = .error .Unauthorized)
    ∧ (∀ out, nft_mint b c r caller att token_id receiver_id md = .ok out →
        caller = r.owner_id)
    ∧ (∀ out, nft_mint_default b c r caller att token_id receiver_id = .ok out →
        caller = r.owner_id)
    ∧ (Registry.new o).owner_id = o
    ∧ (∀ r', Step r r' → r'.owner_id = r.owner_id) := by
  refine ⟨fun h => ⟨?_, ?_⟩, ?_, ?_, rfl, fun r' h => step_owner_id_eq r r' h⟩
  · simp [nft_mint, internal_mint, h]
  · simp [nft_mint_default, internal_mint, h]
  · rintro ⟨r', tok, refund⟩ h
    exact (internal_mint_ok_inv _ _ _ _ _ _ _ _ _ _ _ h).1
  · rintro ⟨r', tok, refund⟩ h
    exact (internal_mint_ok_inv _ _ _ _ _ _ _ _ _ _ _ h).1

/-- Witness for C3: `mallory` is not the minting authority of `demo0`
(owned by `alice`), so both mint entry points reject her with
`Unauthorized`. -/
theorem mint_requires_fixed_authority_witness :
    nft_mint flatBytes 0 demo0 "mallory" 0 "t" "alice" token_metadata
      = .error .Unauthorized
    ∧ nft_mint_default flatBytes 0 demo0 "mallory" 0 "t" "alice"
      = .error .Unauthorized :=
  (mint_requires_fixed_authority flatBytes 0 demo0 "mallory" "x" 0 "t" "alice"
    token_metadata).1 (by decide)

/-- Claim C2: a successful transfer clears the token's entire approval map,
so every previously valid `ApprovalId` for that token — indeed every id at
all — reports `false` from `is_approved` afterwards. -/
theorem transfer_clears_all_approvals (b : Registry → Nat) (c : Nat)
    (r : Registry) (caller : String) (att : Nat)
    (receiver_id token_id : String) (eo : Option String) (aid : Option Nat)
    (r' : Registry) (refund : Nat)
    (h : nft_transfer b c r caller att receiver_id token_id eo aid = .ok (r', refund)) :
    approvalsOf r' token_id = []
    ∧ ∀ account_id id, nft_is_approved r' token_id account_id (some id) = false := by
  obtain ⟨owner, _, _, _, _, hr, _⟩ := nft_transfer_ok_inv _ _ _ _ _ _ _ _ _ _ _ h
  subst hr
  have hap : approvalsOf (transferredState r token_id owner receiver_id) token_id = [] := by
    simp [approvalsOf, transferredState, alistGet_set_self]
  exact ⟨hap, fun account_id id => by simp [nft_is_approved, hap, alistGet]⟩

/-- Witness for C2: after `alice` transfers token `t` to `carol`, the
approval id `1` previously held by `bob` reports `false`. -/
theorem transfer_clears_all_approvals_witness :
    nft_is_approved demoT "t" "bob" (some 1) = false :=
  (transfer_clears_all_approvals flatBytes 0 demo2 "alice" 0 "carol" "t"
    none none demoT 0 rfl).2 "bob" 1

/-- Claim C6: each approve call issues the token's current
`next_approval_id`, increments the counter, records the grantee's id, and
returns the issued id; across any sequence of subsequent successful calls,
a later approve on the same token returns a strictly greater id, and the
earlier id becomes stale for the re-approved grantee. -/
theorem approve_issues_strictly_increasing_ids (b1 : Registry → Nat) (c1 : Nat)
    (r1 : Registry) (caller1 : String) (att1 : Nat)
    (token_id grantee1 : String) (r1' : Registry) (id1 refund1 : Nat)
    (h1 : nft_approve b1 c1 r1 caller1 att1 token_id grantee1 = .ok (r1', id1, refund1))
    (b2 : Registry → Nat) (c2 : Nat) (r2 : Registry) (caller2 : String) (att2 : Nat)
    (grantee2 : String) (r2' : Registry) (id2 refund2 : Nat)
    (hchain : Relation.ReflTransGen Step r1' r2)
    (h2 : nft_approve b2 c2 r2 caller2 att2 token_id grantee2 = .ok (r2', id2, refund2)) :
    id1 = nextOf r1 token_id
    ∧ nextOf r1' token_id = id1 + 1
    ∧ alistGet (approvalsOf r1' token_id) grantee1 = some id1
    ∧ id1 < id2
    ∧ nft_is_approved r2' token_id grantee2 (some id1) = false := by
  obtain ⟨how1, hid1, _, _, hown1, hn1, hap1, _⟩ :=
    nft_approve_ok_inv _ _ _ _ _ _ _ _ _ _ h1
  obtain ⟨how2, hid2, _, _, _, _, hap2, _⟩ :=
    nft_approve_ok_inv _ _ _ _ _ _ _ _ _ _ h2
  have hex : (alistGet r1'.owner_by_id token_id).isSome := by
    rw [hown1, how1]
    rfl
  obtain ⟨_, hmono⟩ := reach_token_mono r1' r2 hchain token_id hex
  rw [hn1, ← hid2] at hmono
  have hlt : id1 < id2 := hmono
  refine ⟨hid1, hn1, ?_, hlt, ?_⟩
  · rw [hap1]
    exact alistGet_set_self _ _ _
  · unfold nft_is_approved
    rw [hap2, alistGet_set_self]
    simp [Nat.ne_of_gt hlt]

/-- Witness for C6: `alice` approves `bob` on token `t` (issued id `1`,
counter moves to `2`), then immediately re-approves `bob` (issued id `2`):
the ids strictly increase and the old id is stale. -/
theorem approve_issues_strictly_increasing_ids_witness :
    1 = nextOf demo1 "t"
    ∧ nextOf demo2 "t" = 2
    ∧ alistGet (approvalsOf demo2 "t") "bob" = some 1
    ∧ 1 < 2
    ∧ nft_is_approved demo3 "t" "bob" (some 1) = false :=
  approve_issues_strictly_increasing_ids flatBytes 0 demo1 "alice" 0 "t" "bob"
    demo2 1 0 rfl flatBytes 0 demo2 "alice" 0 "bob" demo3 2 0
    Relation.ReflTransGen.refl rfl

/-- Claim C7: the transfer caller may supply an `expected_owner_id`; when it
disagrees with the token's current owner the call fails with `OwnerMismatch`
and commits no state change, and when it agrees the call never fails with
`OwnerMismatch`. -/
theorem transfer_owner_mismatch_check (b : Registry → Nat) (c : Nat)
    (r : Registry) (caller : String) (att : Nat)
    (receiver_id token_id : String) (aid : Option Nat) (owner : String)
    (howner : alistGet r.owner_by_id token_id = some owner) :
    (∀ e, e ≠ owner →
       nft_transfer b c r caller att receiver_id token_id (some e) aid
         = .error .OwnerMismatch
       ∧ commit r (nft_transfer b c r caller att receiver_id token_id (some e) aid) = r)
    ∧ nft_transfer b c r caller att receiver_id token_id (some owner) aid
        ≠ .error .OwnerMismatch := by
  constructor
  · intro e he
    have h : nft_transfer b c r caller att receiver_id token_id (some e) aid
        = .error .OwnerMismatch := by
      simp [nft_transfer, howner, he]
    exact ⟨h, by rw [h]; rfl⟩
  · intro hcon
    unfold nft_transfer at hcon
    rw [howner] at hcon
    simp only [Option.getD_some, ne_eq, not_true_eq_false, if_false, ite_not] at hcon
    split at hcon
    next e' hta =>
      rcases transferAuthError_kinds _ _ _ _ _ _ hta with h' | h' <;>
        subst h' <;> exact absurd (Except.error.inj hcon) (by simp)
    next hta =>
      split at hcon
      · exact absurd (Except.error.inj hcon) (by simp)
      · split at hcon
        next e'' hm =>
          rcases measure_error_kinds _ _ _ _ _ hm with h' | h' <;>
            subst h' <;> exact absurd (Except.error.inj hcon) (by simp)
        next hm => exact absurd hcon (by simp)

/-- Witness for C7: on `demo1` (token `t` owned by `alice`) a transfer that
expects owner `mallory` fails with `OwnerMismatch`. -/
theorem transfer_owner_mismatch_check_witness :
    nft_transfer flatBytes 0 demo1 "alice" 0 "carol" "t" (some "mallory") none
      = .error .OwnerMismatch :=
  ((transfer_owner_mismatch_check flatBytes 0 demo1 "alice" 0 "carol" "t" none
    "alice" rfl).1 "mallory" (by decide)).1

/-- Claim C1: for every mutating call whose storage footprint grows by `Δ`
bytes at per-byte cost `byte_cost` — mint, transfer, approve, revoke, and
revoke-all alike — attaching exactly `Δ * byte_cost` succeeds with zero
refund, attaching one less fails with `InsufficientStorageDeposit` leaving
the call aborted, and attaching `Δ * byte_cost + k` succeeds with a refund
of exactly `k`; the required payment is
`(post_bytes - pre_bytes) * byte_cost`, measured on the actual
post-mutation footprint (stated in general for mint). -/
theorem storage_deposit_exact (b : Registry → Nat) (byte_cost : Nat)
    (r : Registry) (caller receiver_id token_id account_id : String)
    (md : TokenMetadata) (eo : Option String) (aid : Option Nat)
    (owner : String) (stored : Nat) (Δ k : Nat)
    (hΔpos : 0 < Δ) (hcpos : 0 < byte_cost)
    (hfit : Δ * byte_cost + k < U128_LIMIT) :
    (caller = r.owner_id → alistGet r.owner_by_id token_id = none →
      b (mintedState r token_id receiver_id md) = b r + Δ →
      nft_mint b byte_cost r caller (Δ * byte_cost) token_id receiver_id md
        = .ok (mintedState r token_id receiver_id md,
               { token_id := token_id, owner_id := receiver_id,
                 metadata := some md, approved_account_ids := some [] }, 0)
      ∧ nft_mint b byte_cost r caller (Δ * byte_cost - 1) token_id receiver_id md
        = .error .InsufficientStorageDeposit
      ∧ nft_mint b byte_cost r caller (Δ * byte_cost + k) token_id receiver_id md
        = .ok (mintedState r token_id receiver_id md,
               { token_id := token_id, owner_id := receiver_id,
                 metadata := some md, approved_account_ids := some [] }, k)
      ∧ (∀ attached, attached < Δ * byte_cost →
          nft_mint b byte_cost r caller attached token_id receiver_id md
            = .error .InsufficientStorageDeposit)
      ∧ (∀ attached, Δ * byte_cost ≤ attached →
          nft_mint b byte_cost r caller attached token_id receiver_id md
            = .ok (mintedState r token_id receiver_id md,
                   { token_id := token_id, owner_id := receiver_id,
                     metadata := some md, approved_account_ids := some [] },
                   attached - Δ * byte_cost)))
    ∧ (alistGet r.owner_by_id token_id = some owner → eo.getD owner = owner →
      transferAuthError r caller token_id owner aid = none → receiver_id ≠ owner →
      b (transferredState r token_id owner receiver_id) = b r + Δ →
      nft_transfer b byte_cost r caller (Δ * byte_cost) receiver_id token_id eo aid
        = .ok (transferredState r token_id owner receiver_id, 0)
      ∧ nft_transfer b byte_cost r caller (Δ * byte_cost - 1) receiver_id token_id eo aid
        = .error .InsufficientStorageDeposit
      ∧ nft_transfer b byte_cost r caller (Δ * byte_cost + k) receiver_id token_id eo aid
        = .ok (transferredState r token_id owner receiver_id, k))
    ∧ (alistGet r.owner_by_id token_id = some caller →
      nextOf r token_id + 1 < U64_LIMIT →
      b (approvedState r token_id account_id) = b r + Δ →
      nft_approve b byte_cost r caller (Δ * byte_cost) token_id account_id
        = .ok (approvedState r token_id account_id, nextOf r token_id, 0)
      ∧ nft_approve b byte_cost r caller (Δ * byte_cost - 1) token_id account_id
        = .error .InsufficientStorageDeposit
      ∧ nft_approve b byte_cost r caller (Δ * byte_cost + k) token_id account_id
        = .ok (approvedState r token_id account_id, nextOf r token_id, k))
    ∧ (alistGet r.owner_by_id token_id = some caller →
      alistGet (approvalsOf r token_id) account_id = some stored →
      b (revokedState r token_id account_id) = b r + Δ →
      nft_revoke b byte_cost r caller (Δ * byte_cost) token_id account_id
        = .ok (revokedState r token_id account_id, 0)
      ∧ nft_revoke b byte_cost r caller (Δ * byte_cost - 1) token_id account_id
        = .error .InsufficientStorageDeposit
      ∧ nft_revoke b byte_cost r caller (Δ * byte_cost + k) token_id account_id
        = .ok (revokedState r token_id account_id, k))
    ∧ (alistGet r.owner_by_id token_id = some caller →
      b (revokeAllState r token_id) = b r + Δ →
      nft_revoke_all b byte_cost r caller (Δ * byte_cost) token_id
        = .ok (revokeAllState r token_id, 0)
      ∧ nft_revoke_all b byte_cost r caller (Δ * byte_cost - 1) token_id
        = .error .InsufficientStorageDeposit
      ∧ nft_revoke_all b byte_cost r caller (Δ * byte_cost + k) token_id
        = .ok (revokeAllState r token_id, k)) := by
  refine ⟨?_, ?_, ?_, ?_, ?_⟩
  · intro hauth hfresh hΔ
    obtain ⟨m0, m1, m2, mbad, mok⟩ := measure_growth_triple byte_cost (b r)
      (b (mintedState r token_id receiver_id md)) Δ k hΔ hΔpos hcpos hfit
    have hok : ∀ attached, Δ * byte_cost ≤ attached →
        nft_mint b byte_cost r caller attached token_id receiver_id md
          = .ok (mintedState r token_id receiver_id md,
                 { token_id := token_id, owner_id := receiver_id,
                   metadata := some md, approved_account_ids := some [] },
                 attached - Δ * byte_cost) := fun attached hle =>
      internal_mint_of_measure b byte_cost r caller attached token_id
        receiver_id md _ hauth hfresh (mok attached hle)
    have hbad : ∀ attached, attached < Δ * byte_cost →
        nft_mint b byte_cost r caller attached token_id receiver_id md
          = .error .InsufficientStorageDeposit := fun attached hlt =>
      internal_mint_of_measure_error b byte_cost r caller attached token_id
        receiver_id md _ hauth hfresh (mbad attached hlt)
    refine ⟨?_, ?_, ?_, hbad, hok⟩
    · exact internal_mint_of_measure b byte_cost r caller _ token_id
        receiver_id md _ hauth hfresh m0
    · have hpos : 0 < Δ * byte_cost := Nat.mul_pos hΔpos hcpos
      exact hbad _ (by omega)
    · exact internal_mint_of_measure b byte_cost r caller _ token_id
        receiver_id md _ hauth hfresh m2
  · intro howner heo hauth hrid hΔ
    obtain ⟨m0, m1, m2, _, _⟩ := measure_growth_triple byte_cost (b r)
      (b (transferredState r token_id owner receiver_id)) Δ k hΔ hΔpos hcpos hfit
    exact ⟨nft_transfer_of_measure b byte_cost r caller _ receiver_id token_id
             eo aid owner (.ok 0) howner heo hauth hrid m0,
           nft_transfer_of_measure b byte_cost r caller _ receiver_id token_id
             eo aid owner (.error .InsufficientStorageDeposit) howner heo hauth hrid m1,
           nft_transfer_of_measure b byte_cost r caller _ receiver_id token_id
             eo aid owner (.ok k) howner heo hauth hrid m2⟩
  · intro howner hfitc hΔ
    obtain ⟨m0, m1, m2, _, _⟩ := measure_growth_triple byte_cost (b r)
      (b (approvedState r token_id account_id)) Δ k hΔ hΔpos hcpos hfit
    exact ⟨nft_approve_of_measure b byte_cost r caller _ token_id account_id
             (.ok 0) howner hfitc m0,
           nft_approve_of_measure b byte_cost r caller _ token_id account_id
             (.error .InsufficientStorageDeposit) howner hfitc m1,
           nft_approve_of_measure b byte_cost r caller _ token_id account_id
             (.ok k) howner hfitc m2⟩
  · intro howner hst hΔ
    obtain ⟨m0, m1, m2, _, _⟩ := measure_growth_triple byte_cost (b r)
      (b (revokedState r token_id account_id)) Δ k hΔ hΔpos hcpos hfit
    exact ⟨nft_revoke_of_measure b byte_cost r caller _ token_id account_id
             stored (.ok 0) howner hst m0,
           nft_revoke_of_measure b byte_cost r caller _ token_id account_id
             stored (.error .InsufficientStorageDeposit) howner hst m1,
           nft_revoke_of_measure b byte_cost r caller _ token_id account_id
             stored (.ok k) howner hst m2⟩
  · intro howner hΔ
    obtain ⟨m0, m1, m2, _, _⟩ := measure_growth_triple byte_cost (b r)
      (b (revokeAllState r token_id)) Δ k hΔ hΔpos hcpos hfit
    exact ⟨nft_revoke_all_of_measure b byte_cost r caller _ token_id
             (.ok 0) howner m0,
           nft_revoke_all_of_measure b byte_cost r caller _ token_id
             (.error .InsufficientStorageDeposit) howner m1,
           nft_revoke_all_of_measure b byte_cost r caller _ token_id
             (.ok k) howner m2⟩

/-- Witness for C1: with a cost model that grows by one byte per mint and
`byte_cost = 3`, minting with deposits `3`, `2`, and `8` succeeds with
refund `0`, fails with `InsufficientStorageDeposit`, and succeeds with
refund `5`; and with a cost model that grows by one byte per approval of
token `t`, the approve call behaves identically on deposits `3`, `2`,
and `8`. -/
theorem storage_deposit_exact_witness :
    nft_mint growBytes 3 demo0 "alice" 3 "t" "alice" token_metadata
      = .ok (demo1, { token_id := "t", owner_id := "alice",
                      metadata := some token_metadata,
                      approved_account_ids := some [] }, 0)
    ∧ nft_mint growBytes 3 demo0 "alice" 2 "t" "alice" token_metadata
      = .error .InsufficientStorageDeposit
    ∧ nft_mint growBytes 3 demo0 "alice" 8 "t" "alice" token_metadata
      = .ok (demo1, { token_id := "t", owner_id := "alice",
                      metadata := some token_metadata,
                      approved_account_ids := some [] }, 5)
    ∧ nft_approve approvalBytes 3 demo1 "alice" 3 "t" "bob" = .ok (demo2, 1, 0)
    ∧ nft_approve approvalBytes 3 demo1 "alice" 2 "t" "bob"
      = .error .InsufficientStorageDeposit
    ∧ nft_approve approvalBytes 3 demo1 "alice" 8 "t" "bob" = .ok (demo2, 1, 5) := by
  have h1 := (storage_deposit_exact growBytes 3 demo0 "alice" "alice" "t" "bob"
    token_metadata none none "alice" 0 1 5 (by decide) (by decide) (by decide)).1
    rfl rfl rfl
  have h2 := (storage_deposit_exact approvalBytes 3 demo1 "alice" "carol" "t" "bob"
    token_metadata none none "alice" 0 1 5 (by decide) (by decide) (by decide)).2.2.1
    rfl (by decide) rfl
  exact ⟨h1.1, h1.2.1, h1.2.2.1, h2.1, h2.2.1, h2.2.2⟩

/-- Claim C4: minting a token id not currently present (by the authority,
with the accountant accepting the attached payment) succeeds and yields a
token owned by the receiver with the supplied metadata and an empty
approval map; minting an id that already exists fails with
`TokenAlreadyExists`; and a successful mint preserves distinctness of the
ownership store's token ids. -/
theorem mint_token_uniqueness (b : Registry → Nat) (c : Nat) (r : Registry)
    (caller : String) (att : Nat) (token_id receiver_id : String)
    (md : TokenMetadata) :
    (∀ refund, alistGet r.owner_by_id token_id = none → caller = r.owner_id →
       measure c (b r) (b (mintedState r token_id receiver_id md)) att = .ok refund →
       nft_mint b c r caller att token_id receiver_id md
         = .ok (mintedState r token_id receiver_id md,
                { token_id := token_id, owner_id := receiver_id,
                  metadata := some md, approved_account_ids := some [] }, refund)
       ∧ alistGet (mintedState r token_id receiver_id md).owner_by_id token_id
           = some receiver_id
       ∧ alistGet (mintedState r token_id receiver_id md).token_metadata_by_id token_id
           = some md
       ∧ approvalsOf (mintedState r token_id receiver_id md) token_id = [])
    ∧ (caller = r.owner_id → (alistGet r.owner_by_id token_id).isSome →
       nft_mint b c r caller att token_id receiver_id md = .error .TokenAlreadyExists)
    ∧ (∀ r' tok refund, (r.owner_by_id.map Prod.fst).Nodup →
       nft_mint b c r caller att token_id receiver_id md = .ok (r', tok, refund) →
       (r'.owner_by_id.map Prod.fst).Nodup) := by
  refine ⟨?_, ?_, ?_⟩
  · intro refund hfresh hauth hm
    refine ⟨internal_mint_of_measure b c r caller att token_id receiver_id md
      refund hauth hfresh hm, ?_, ?_, ?_⟩
    · simp [mintedState, alistGet_set_self]
    · simp [mintedState, alistGet_set_self]
    · simp [approvalsOf, mintedState, alistGet_set_self]
  · intro hauth hsome
    subst hauth
    simp [nft_mint, internal_mint, hsome]
  · intro r' tok refund hnd h
    obtain ⟨_, hfresh, hr, _, _⟩ := internal_mint_ok_inv _ _ _ _ _ _ _ _ _ _ _ h
    subst hr
    show ((alistSet r.owner_by_id token_id receiver_id).map Prod.fst).Nodup
    rw [keys_alistSet_fresh _ _ _ hfresh]
    have hnotin : token_id ∉ r.owner_by_id.map Prod.fst :=
      (alistGet_eq_none_iff _ _).mp hfresh
    simp [List.nodup_append, hnd, hnotin]

/-- Witness for C4: minting fresh token `t` succeeds with owner `alice`,
metadata attached and empty approvals; minting `t` again while it exists
fails with `TokenAlreadyExists`. -/
theorem mint_token_uniqueness_witness :
    nft_mint growBytes 3 demo0 "alice" 3 "t" "alice" token_metadata
      = .ok (demo1, { token_id := "t", owner_id := "alice",
                      metadata := some token_metadata,
                      approved_account_ids := some [] }, 0)
    ∧ alistGet demo1.owner_by_id "t" = some "alice"
    ∧ approvalsOf demo1 "t" = []
    ∧ nft_mint growBytes 3 demo1 "alice" 3 "t" "carol" token_metadata
      = .error .TokenAlreadyExists := by
  have h := (mint_token_uniqueness growBytes 3 demo0 "alice" 3 "t" "alice"
    token_metadata).1 0 rfl rfl rfl
  have h2 := (mint_token_uniqueness growBytes 3 demo1 "alice" 3 "t" "carol"
    token_metadata).2.1 rfl rfl
  exact ⟨h.1, h.2.1, h.2.2.2, h2⟩

/-- Claim C9: arithmetic overflow in any accounting computation aborts the
call instead of wrapping: the Storage Accountant aborts when a required
payment or refund total would leave the `u128` domain, every value it does
return is the exact mathematical result (and in-domain), and the approval
counter aborts rather than wrap past the `u64` domain. -/
theorem accounting_overflow_aborts (b : Registry → Nat) (c pre post att : Nat)
    (r : Registry) (caller tid acct : String) :
    (pre < post → U128_LIMIT ≤ (post - pre) * c →
       measure c pre post att = .error .Overflow)
    ∧ (post < pre → U128_LIMIT ≤ att + (pre - post) * c →
       measure c pre post att = .error .Overflow)
    ∧ (∀ v, measure c pre post att = .ok v → att < U128_LIMIT →
       v < U128_LIMIT
       ∧ (pre < post → (post - pre) * c ≤ att ∧ v = att - (post - pre) * c)
       ∧ (post < pre → v = att + (pre - post) * c)
       ∧ (post = pre → v = att))
    ∧ (∀ r' id refund, nft_approve b c r caller att tid acct = .ok (r', id, refund) →
       id + 1 < U64_LIMIT)
    ∧ (alistGet r.owner_by_id tid = some caller → U64_LIMIT ≤ nextOf r tid + 1 →
       nft_approve b c r caller att tid acct = .error .Overflow) := by
  refine ⟨?_, ?_, ?_, ?_, ?_⟩
  · intro h1 h2
    simp [measure, h1, h2]
  · intro h1 h2
    have h3 : ¬pre < post := by omega
    simp [measure, h3, h1, h2]
  · intro v h hatt
    unfold measure at h
    by_cases h1 : pre < post
    · rw [if_pos h1] at h
      by_cases h2 : U128_LIMIT ≤ (post - pre) * c
      · rw [if_pos h2] at h
        exact absurd h (by simp)
      · rw [if_neg h2] at h
        by_cases h3 : att < (post - pre) * c
        · rw [if_pos h3] at h
          exact absurd h (by simp)
        · rw [if_neg h3] at h
          have hv : v = att - (post - pre) * c := (Except.ok.inj h).symm
          exact ⟨by omega, fun _ => ⟨le_of_not_lt h3, hv⟩,
                 fun hc => absurd hc (by omega), fun hc => by omega⟩
    · rw [if_neg h1] at h
      by_cases h4 : post < pre
      · rw [if_pos h4] at h
        by_cases h5 : U128_LIMIT ≤ att + (pre - post) * c
        · rw [if_pos h5] at h
          exact absurd h (by simp)
        · rw [if_neg h5] at h
          have hv : v = att + (pre - post) * c := (Except.ok.inj h).symm
          exact ⟨by omega, fun hc => absurd hc h1, fun _ => hv, fun hc => by omega⟩
      · rw [if_neg h4] at h
        have hv : v = att := (Except.ok.inj h).symm
        exact ⟨by omega, fun hc => absurd hc h1, fun hc => absurd hc h4, fun _ => hv⟩
  · intro r' id refund h
    exact (nft_approve_ok_inv _ _ _ _ _ _ _ _ _ _ h).2.2.1
  · intro how hover
    simp [nft_approve, how, hover]

/-- Witness for C9: growing by `2 ^ 127` bytes at cost `2` would require a
payment of `2 ^ 128`, outside the `u128` domain, so the accountant aborts
with `Overflow`. -/
theorem accounting_overflow_aborts_witness :
    measure 2 0 (2 ^ 127) 0 = .error .Overflow :=
  (accounting_overflow_aborts flatBytes 2 0 (2 ^ 127) 0 demo0 "alice" "t" "bob").1
    (by decide) (by norm_num [U128_LIMIT])

end HelloMint
